import Mathlib

/-!
# Verification of the AlarmServer scheduling core

Shallow embedding of the scheduling core of the AlarmServer repository
(`src/alarm_system.cpp` together with the declarations and inline utilities of its
header, which appears at the end of `src/database.cpp` in this source drop).

Modelling conventions:

* `std::chrono::system_clock::time_point` values are modelled as `Int`, counting
  seconds since the Unix epoch (the code only ever manipulates whole seconds:
  events are created from minute-precision strings and advanced by whole hours,
  months or years).
* The libc functions `localtime` and `mktime` used by `calculateNextOccurrence`
  are modelled over the proleptic Gregorian calendar with the timezone fixed to
  UTC and no daylight-saving adjustment.  `civilFromDays`/`dfcFirst` implement
  the standard civil-from-days / days-from-civil algorithms; `mktime` performs
  the same field normalization as libc `mktime` (out-of-range `tm_mon` carried
  into the year, out-of-range `tm_mday` carried into the month, since the day
  enters the day count linearly).
* `std::priority_queue` (a min-heap on `datetime` via `operator>` /
  `std::greater`) is modelled as the multiset of its elements (a `List`);
  draining the heap from the top yields the elements sorted by ascending
  `datetime` with ties in an unspecified order, modelled by a stable insertion
  sort.
* The database collaborator is external (sqlite); its success or failure is an
  explicit parameter of the operations that call it, mirroring the
  `DatabaseException` control flow of the C++ code.
-/

namespace AlarmServer

/-- The `RecurrenceType` enum of the header. -/
inductive RecurrenceType where
  | NONE
  | DAILY
  | WEEKLY
  | MONTHLY
  | YEARLY
deriving DecidableEq, Repr

/-- The inline helper `recurrenceTypeToString` of the header. -/
def recurrenceTypeToString : RecurrenceType → String
  | .DAILY => "Daily"
  | .WEEKLY => "Weekly"
  | .MONTHLY => "Monthly"
  | .YEARLY => "Yearly"
  | .NONE => "None"

/-! ## The civil calendar: model of libc `localtime` / `mktime` -/

/-- Model of `struct tm` (only the fields the program uses).  `year` counts
years since 1900 and `mon` is 0-based, as in libc. -/
structure Tm where
  sec : Int
  min : Int
  hour : Int
  mday : Int
  mon : Int
  year : Int
deriving DecidableEq, Repr

/-- Gregorian leap-year predicate. -/
def isLeap (y : Int) : Bool := (y % 4 == 0 && y % 100 != 0) || y % 400 == 0

/-- Length of calendar month `m` (1-based) of year `y`; `0` for out-of-range `m`. -/
def daysInMonth (y : Int) (m : Nat) : Nat :=
  match m with
  | 1 => 31
  | 2 => if isLeap y then 29 else 28
  | 3 => 31
  | 4 => 30
  | 5 => 31
  | 6 => 30
  | 7 => 31
  | 8 => 31
  | 9 => 30
  | 10 => 31
  | 11 => 30
  | 12 => 31
  | _ => 0

/-- Upper bound for the length of shifted month `mp` (`0 = March`, …,
`11 = February`); February is capped at its leap-year length. -/
def mLen (mp : Nat) : Nat := [31, 30, 31, 30, 31, 31, 30, 31, 30, 31, 31, 29].getD mp 0

/-- Days from the start of a 400-year era to the start of era-year `yoe`
(era years begin on March 1). -/
def cumD (yoe : Nat) : Nat := 365 * yoe + yoe / 4 - yoe / 100 + yoe / 400

/-- Inner expression of the year-of-era formula of `civilFromDays`. -/
def gFun (doe : Nat) : Nat := doe - doe / 1460 + doe / 36524 - doe / 146096

/-- Year-of-era of a day-of-era, per the standard civil-from-days algorithm. -/
def yoeF (doe : Nat) : Nat := gFun doe / 365

/-- Shifted year used by the days-from-civil computation: January and February
count as part of the previous (March-based) year. -/
def dfcShiftYear (y : Int) (m : Nat) : Int := if m ≤ 2 then y - 1 else y

/-- Era (400-year Gregorian cycle) of the shifted year. -/
def dfcEra (y : Int) (m : Nat) : Int := dfcShiftYear y m / 400

/-- Year within the era, in `[0, 399]`. -/
def dfcYoe (y : Int) (m : Nat) : Nat := (dfcShiftYear y m - dfcEra y m * 400).toNat

/-- Shifted month: March is `0`, …, February is `11`. -/
def dfcMp (m : Nat) : Nat := if 3 ≤ m then m - 3 else m + 9

/-- Day-of-(March-based)-year of the first day of month `m`. -/
def dfcDoy (m : Nat) : Nat := (153 * dfcMp m + 2) / 5

/-- Serial day number (days since 1970-01-01) of the first day of civil month
`m` of year `y`; the standard days-from-civil computation. -/
def dfcFirst (y : Int) (m : Nat) : Int :=
  dfcEra y m * 146097 +
    ((dfcYoe y m * 365 + dfcYoe y m / 4 - dfcYoe y m / 100 + dfcDoy m : Nat) : Int) - 719468

/-- Era of a serial day number. -/
def cfdEra (z : Int) : Int := (z + 719468) / 146097

/-- Day-of-era of a serial day number, in `[0, 146096]`. -/
def cfdDoe (z : Int) : Nat := ((z + 719468) - cfdEra z * 146097).toNat

/-- Year-of-era of a serial day number. -/
def cfdYoe (z : Int) : Nat := yoeF (cfdDoe z)

/-- Day-of-(March-based)-year of a serial day number. -/
def cfdDoy (z : Int) : Nat :=
  cfdDoe z - (365 * cfdYoe z + cfdYoe z / 4 - cfdYoe z / 100)

/-- Shifted month of a serial day number. -/
def cfdMp (z : Int) : Nat := (5 * cfdDoy z + 2) / 153

/-- Day-of-month of a serial day number. -/
def cfdDay (z : Int) : Nat := cfdDoy z - (153 * cfdMp z + 2) / 5 + 1

/-- Civil month (1-based) of a serial day number. -/
def cfdMonth (z : Int) : Nat := if cfdMp z < 10 then cfdMp z + 3 else cfdMp z - 9

/-- Civil year of a serial day number. -/
def cfdYear (z : Int) : Int :=
  (cfdEra z * 400 + cfdYoe z) + (if cfdMonth z ≤ 2 then 1 else 0)

/-- Serial day number to civil `(year, month, day)`; the standard
civil-from-days algorithm (inverse of `dfcFirst` + day offset). -/
def civilFromDays (z : Int) : Int × Nat × Nat := (cfdYear z, cfdMonth z, cfdDay z)

/-- Model of libc `mktime` (with TZ = UTC): normalizes the fields and returns
seconds since the epoch.  An out-of-range `mon` is carried into the year and
the `mday`, `hour`, `min`, `sec` fields enter linearly, exactly as libc
normalization behaves. -/
def mktime (tm : Tm) : Int :=
  (dfcFirst (1900 + tm.year + tm.mon / 12) ((tm.mon % 12).toNat + 1) + (tm.mday - 1)) * 86400 +
    tm.hour * 3600 + tm.min * 60 + tm.sec

/-- Model of libc `localtime` (with TZ = UTC): splits seconds since the epoch
into civil fields. -/
def localtime (t : Int) : Tm :=
  { year := cfdYear (t / 86400) - 1900
    mon := (cfdMonth (t / 86400) : Int) - 1
    mday := (cfdDay (t / 86400) : Int)
    hour := ((t % 86400).toNat / 3600 : Nat)
    min := ((t % 86400).toNat % 3600 / 60 : Nat)
    sec := ((t % 86400).toNat % 60 : Nat) }

/-! ### Correctness of the civil-calendar pair -/

theorem gFun_step {k : Nat} (h : k < 146096) : gFun k ≤ gFun (k + 1) := by
  unfold gFun
  omega

theorem gFun_mono : ∀ {a b : Nat}, a ≤ b → b ≤ 146096 → gFun a ≤ gFun b := by
  intro a b hab hb
  induction b with
  | zero =>
    have : a = 0 := by omega
    subst this
    exact le_rfl
  | succ n ih =>
    rcases Nat.lt_or_ge a (n + 1) with h | h
    · exact le_trans (ih (by omega) (by omega)) (gFun_step (by omega))
    · have : a = n + 1 := by omega
      subst this
      exact le_rfl

theorem yoeF_mono {a b : Nat} (hab : a ≤ b) (hb : b ≤ 146096) : yoeF a ≤ yoeF b :=
  Nat.div_le_div_right (gFun_mono hab hb)

set_option maxRecDepth 100000 in
theorem yoeF_endpoints :
    ∀ yoe : Nat, yoe < 400 → yoeF (cumD yoe) = yoe ∧ yoeF (cumD (yoe + 1) - 1) = yoe := by
  decide

theorem cumD_step (n : Nat) : cumD n ≤ cumD (n + 1) := by
  unfold cumD
  omega

theorem cumD_mono : ∀ {a b : Nat}, a ≤ b → cumD a ≤ cumD b := by
  intro a b hab
  induction b with
  | zero =>
    have : a = 0 := by omega
    subst this
    exact le_rfl
  | succ n ih =>
    rcases Nat.lt_or_ge a (n + 1) with h | h
    · exact le_trans (ih (by omega)) (cumD_step n)
    · have : a = n + 1 := by omega
      subst this
      exact le_rfl

theorem cumD_400 : cumD 400 = 146097 := by decide

theorem yoeF_le_399 {doe : Nat} (h : doe ≤ 146096) : yoeF doe ≤ 399 := by
  have h1 : yoeF doe ≤ yoeF 146096 := yoeF_mono h le_rfl
  have h2 : yoeF 146096 = 399 := by decide
  omega

theorem cumD_le {yoe : Nat} (h : yoe ≤ 400) : cumD yoe ≤ 146097 := by
  have h1 := cumD_mono h
  rw [cumD_400] at h1
  exact h1

/-- The year-of-era formula brackets every day-of-era within its year. -/
theorem yoeF_bracket {doe : Nat} (h : doe ≤ 146096) :
    cumD (yoeF doe) ≤ doe ∧ doe < cumD (yoeF doe + 1) := by
  have h399 : yoeF doe ≤ 399 := yoeF_le_399 h
  constructor
  · by_contra hlt
    push_neg at hlt
    have h1 : 1 ≤ yoeF doe := by
      rcases Nat.eq_zero_or_pos (yoeF doe) with h0 | h0
      · rw [h0] at hlt
        simp [cumD] at hlt
      · exact h0
    have hend := (yoeF_endpoints (yoeF doe - 1) (by omega)).2
    have heq : yoeF doe - 1 + 1 = yoeF doe := by omega
    rw [heq] at hend
    have hb2 : cumD (yoeF doe) - 1 ≤ 146096 := by
      have := cumD_le (show yoeF doe ≤ 400 by omega)
      omega
    have := yoeF_mono (show doe ≤ cumD (yoeF doe) - 1 by omega) hb2
    omega
  · by_contra hge
    push_neg at hge
    rcases Nat.lt_or_ge (yoeF doe + 1) 400 with hy | hy
    · have hend := (yoeF_endpoints (yoeF doe + 1) hy).1
      have := yoeF_mono hge h
      omega
    · have : yoeF doe + 1 = 400 := by omega
      rw [this, cumD_400] at hge
      omega

/-- Uniqueness of the bracketing year-of-era. -/
theorem yoeF_eq_of_bracket {doe y : Nat} (h : doe ≤ 146096)
    (h1 : cumD y ≤ doe) (h2 : doe < cumD (y + 1)) : yoeF doe = y := by
  have hb := yoeF_bracket h
  rcases Nat.lt_trichotomy (yoeF doe) y with hlt | heq | hgt
  · have : cumD (yoeF doe + 1) ≤ cumD y := cumD_mono (by omega)
    omega
  · exact heq
  · have : cumD (y + 1) ≤ cumD (yoeF doe) := cumD_mono (by omega)
    omega

set_option maxRecDepth 100000 in
/-- Forward month table: position of a day-of-year inside the shifted months. -/
theorem mp_table :
    ∀ doy : Nat, doy < 366 →
      (5 * doy + 2) / 153 < 12 ∧
      (153 * ((5 * doy + 2) / 153) + 2) / 5 ≤ doy ∧
      doy - (153 * ((5 * doy + 2) / 153) + 2) / 5 + 1 ≤ mLen ((5 * doy + 2) / 153) ∧
      ((5 * doy + 2) / 153 = 11 → doy - (153 * ((5 * doy + 2) / 153) + 2) / 5 + 1 = 29 →
        doy = 365) := by
  decide

set_option maxRecDepth 100000 in
/-- Reverse month table: the shifted-month formula recovers the month from the
day-of-year of any in-range day of that month. -/
theorem mp_rev :
    ∀ mp : Nat, mp < 12 → ∀ d : Nat, d < 32 → 1 ≤ d → d ≤ mLen mp →
      (5 * ((153 * mp + 2) / 5 + d - 1) + 2) / 153 = mp := by
  decide

theorem daysInMonth_le_31 (y : Int) (m : Nat) : daysInMonth y m ≤ 31 := by
  unfold daysInMonth
  split <;> first | omega | (split <;> omega)

/-- A year of era `k` (counting from 1) has 366 days exactly when the civil
year containing its February is a leap year. -/
theorem leap_iff_cumD {e : Int} {k : Nat} (h1 : 1 ≤ k) (h4 : k ≤ 400) :
    isLeap (e * 400 + (k : Int)) = true ↔ cumD (k - 1) + 366 = cumD k := by
  simp only [isLeap, cumD, Bool.or_eq_true, Bool.and_eq_true, beq_iff_eq, bne_iff_ne, ne_eq]
  omega

theorem cfdDoe_le (z : Int) : cfdDoe z ≤ 146096 := by
  unfold cfdDoe cfdEra
  omega

theorem cfdDoe_spec (z : Int) : (cfdDoe z : Int) = (z + 719468) - cfdEra z * 146097 := by
  unfold cfdDoe cfdEra
  omega

theorem cumD_step_le (n : Nat) : cumD (n + 1) ≤ cumD n + 366 := by
  unfold cumD
  omega

theorem cumD_step_ge (n : Nat) : cumD n + 365 ≤ cumD (n + 1) := by
  by_cases h : (n + 1) % 100 = 0
  · have h4 : (n + 1) % 4 = 0 := by omega
    unfold cumD
    omega
  · unfold cumD
    omega

theorem cfd_cum (z : Int) :
    365 * cfdYoe z + cfdYoe z / 4 - cfdYoe z / 100 + cfdDoy z = cfdDoe z ∧ cfdDoy z < 366 := by
  have hdoe := cfdDoe_le z
  have hyoe : cfdYoe z ≤ 399 := yoeF_le_399 hdoe
  have hbr : cumD (cfdYoe z) ≤ cfdDoe z ∧ cfdDoe z < cumD (cfdYoe z + 1) := yoeF_bracket hdoe
  have hstep : cumD (cfdYoe z + 1) ≤ cumD (cfdYoe z) + 366 := cumD_step_le _
  unfold cumD at hbr hstep
  unfold cfdDoy
  omega

/-- The days-from-civil computation is a left inverse of civil-from-days:
rebuilding the serial day number from the civil fields recovers it. -/
theorem dfc_cfd (z : Int) :
    dfcFirst (cfdYear z) (cfdMonth z) + (cfdDay z : Int) - 1 = z := by
  have hdoe : cfdDoe z ≤ 146096 := cfdDoe_le z
  have hspec : (cfdDoe z : Int) = (z + 719468) - cfdEra z * 146097 := cfdDoe_spec z
  have hyoe : cfdYoe z ≤ 399 := yoeF_le_399 hdoe
  have hcum := cfd_cum z
  have htab := mp_table (cfdDoy z) hcum.2
  have hmp12 : cfdMp z < 12 := htab.1
  have hbase : (153 * cfdMp z + 2) / 5 ≤ cfdDoy z := htab.2.1
  have hday : cfdDay z = cfdDoy z - (153 * cfdMp z + 2) / 5 + 1 := rfl
  by_cases hmp10 : cfdMp z < 10
  · have hM : cfdMonth z = cfdMp z + 3 := by
      unfold cfdMonth
      rw [if_pos hmp10]
    have hMgt : ¬ cfdMonth z ≤ 2 := by omega
    have hY : cfdYear z = cfdEra z * 400 + cfdYoe z := by
      unfold cfdYear
      rw [if_neg hMgt]
      omega
    have hshift : dfcShiftYear (cfdYear z) (cfdMonth z) = cfdEra z * 400 + (cfdYoe z : Int) := by
      unfold dfcShiftYear
      rw [if_neg hMgt, hY]
    have hera : dfcEra (cfdYear z) (cfdMonth z) = cfdEra z := by
      unfold dfcEra
      rw [hshift]
      omega
    have hyoe2 : dfcYoe (cfdYear z) (cfdMonth z) = cfdYoe z := by
      unfold dfcYoe
      rw [hshift, hera]
      omega
    have hmp2 : dfcMp (cfdMonth z) = cfdMp z := by
      unfold dfcMp
      rw [if_pos (show 3 ≤ cfdMonth z by omega)]
      omega
    have hdoy2 : dfcDoy (cfdMonth z) = (153 * cfdMp z + 2) / 5 := by
      unfold dfcDoy
      rw [hmp2]
    unfold dfcFirst
    rw [hera, hyoe2, hdoy2, hday]
    omega
  · have hM : cfdMonth z = cfdMp z - 9 := by
      unfold cfdMonth
      rw [if_neg hmp10]
    have hMle : cfdMonth z ≤ 2 := by omega
    have hY : cfdYear z = cfdEra z * 400 + cfdYoe z + 1 := by
      unfold cfdYear
      rw [if_pos hMle]
    have hshift : dfcShiftYear (cfdYear z) (cfdMonth z) = cfdEra z * 400 + (cfdYoe z : Int) := by
      unfold dfcShiftYear
      rw [if_pos hMle, hY]
      omega
    have hera : dfcEra (cfdYear z) (cfdMonth z) = cfdEra z := by
      unfold dfcEra
      rw [hshift]
      omega
    have hyoe2 : dfcYoe (cfdYear z) (cfdMonth z) = cfdYoe z := by
      unfold dfcYoe
      rw [hshift, hera]
      omega
    have hmp2 : dfcMp (cfdMonth z) = cfdMp z := by
      unfold dfcMp
      rw [if_neg (show ¬ 3 ≤ cfdMonth z by omega)]
      omega
    have hdoy2 : dfcDoy (cfdMonth z) = (153 * cfdMp z + 2) / 5 := by
      unfold dfcDoy
      rw [hmp2]
    unfold dfcFirst
    rw [hera, hyoe2, hdoy2, hday]
    omega

theorem daysInMonth_le_mLen (y : Int) (m : Nat) (h1 : 1 ≤ m) (h2 : m ≤ 12) :
    daysInMonth y m ≤ mLen (dfcMp m) := by
  interval_cases m <;> simp [daysInMonth, mLen, dfcMp] <;> split <;> omega

theorem mLen_eq_daysInMonth (y : Int) (mp : Nat) (h : mp < 11) :
    daysInMonth y (if mp < 10 then mp + 3 else mp - 9) = mLen mp := by
  interval_cases mp <;> rfl

/-- Validity of the civil fields produced by `civilFromDays`. -/
theorem cfd_valid (z : Int) :
    1 ≤ cfdMonth z ∧ cfdMonth z ≤ 12 ∧ 1 ≤ cfdDay z ∧
      cfdDay z ≤ daysInMonth (cfdYear z) (cfdMonth z) := by
  have hdoe : cfdDoe z ≤ 146096 := cfdDoe_le z
  have hyoe : cfdYoe z ≤ 399 := yoeF_le_399 hdoe
  have hcum := cfd_cum z
  have htab := mp_table (cfdDoy z) hcum.2
  have hmp12 : cfdMp z < 12 := htab.1
  have hbase : (153 * cfdMp z + 2) / 5 ≤ cfdDoy z := htab.2.1
  have hdlen : cfdDay z ≤ mLen (cfdMp z) := htab.2.2.1
  have hM : cfdMonth z = if cfdMp z < 10 then cfdMp z + 3 else cfdMp z - 9 := rfl
  refine ⟨?_, ?_, ?_, ?_⟩
  · rw [hM]; split <;> omega
  · rw [hM]; split <;> omega
  · unfold cfdDay; omega
  · by_cases hmp11 : cfdMp z = 11
    · -- February: cap at 28, or 29 in a leap year
      have hM2 : cfdMonth z = 2 := by
        rw [hM, hmp11]
        decide
      have h29 : cfdDay z ≤ 29 := by
        have : mLen 11 = 29 := rfl
        rw [hmp11] at hdlen
        omega
      rcases Nat.lt_or_ge (cfdDay z) 29 with hlt | hge
      · -- day ≤ 28 fits in any February
        rw [hM2]
        simp only [daysInMonth]
        split <;> omega
      · -- day = 29 forces the year to be a leap year
        have hd29 : cfdDay z = 29 := by omega
        have hdoy365 : cfdDoy z = 365 := by
          have := htab.2.2.2 hmp11
          unfold cfdDay at hd29
          exact this hd29
        -- the year-of-era containing day 365 has 366 days
        have hbr : cumD (cfdYoe z) ≤ cfdDoe z ∧ cfdDoe z < cumD (cfdYoe z + 1) :=
          yoeF_bracket hdoe
        have hstep : cumD (cfdYoe z + 1) ≤ cumD (cfdYoe z) + 366 := cumD_step_le _
        have h366 : cumD (cfdYoe z) + 366 = cumD (cfdYoe z + 1) := by
          have h1 := hcum.1
          unfold cumD at hbr hstep ⊢
          omega
        have hMle : cfdMonth z ≤ 2 := by omega
        have hYd : cfdYear z = cfdEra z * 400 + ((cfdYoe z + 1 : Nat) : Int) := by
          unfold cfdYear
          rw [if_pos hMle]
          push_cast
          ring
        have hleap : isLeap (cfdYear z) = true := by
          rw [hYd]
          exact (leap_iff_cumD (by omega) (by omega)).mpr (by simpa using h366)
        rw [hM2]
        simp only [daysInMonth, hleap, if_pos]
        omega
    · -- any other month: the table length is the exact month length
      have h11 : cfdMp z < 11 := by omega
      have := mLen_eq_daysInMonth (cfdYear z) (cfdMp z) h11
      rw [hM]
      omega

theorem dfcYoe_le (y : Int) (m : Nat) : dfcYoe y m ≤ 399 := by
  unfold dfcYoe dfcEra
  omega

theorem dfcShift_spec (y : Int) (m : Nat) :
    dfcShiftYear y m = dfcEra y m * 400 + (dfcYoe y m : Int) := by
  unfold dfcYoe dfcEra
  omega

theorem dfcMp_le (m : Nat) (h1 : 1 ≤ m) (h2 : m ≤ 12) : dfcMp m ≤ 11 := by
  unfold dfcMp
  split <;> omega

theorem dfcMp_eq_11 (m : Nat) (h1 : 1 ≤ m) (h2 : m ≤ 12) : dfcMp m = 11 ↔ m = 2 := by
  unfold dfcMp
  split <;> omega

/-- Civil-from-days is a left inverse of days-from-civil on valid dates. -/
theorem cfd_dfc (y : Int) (m d : Nat) (h1 : 1 ≤ m) (h2 : m ≤ 12) (h3 : 1 ≤ d)
    (h4 : d ≤ daysInMonth y m) :
    civilFromDays (dfcFirst y m + (d : Int) - 1) = (y, m, d) := by
  have hd31 : d ≤ 31 := le_trans h4 (daysInMonth_le_31 y m)
  have hyoe : dfcYoe y m ≤ 399 := dfcYoe_le y m
  have hshift := dfcShift_spec y m
  have hmp11 : dfcMp m ≤ 11 := dfcMp_le m h1 h2
  have hdmlen : d ≤ mLen (dfcMp m) := le_trans h4 (daysInMonth_le_mLen y m h1 h2)
  -- the day-of-year of the date fits strictly inside its year-of-era
  have hup : cumD (dfcYoe y m) + (dfcDoy m + d - 1) < cumD (dfcYoe y m + 1) := by
    by_cases hm2 : m = 2
    · have hbase : dfcDoy m = 337 := by
        subst hm2
        decide
      rcases Nat.lt_or_ge d 29 with hd28 | hd29
      · have := cumD_step_ge (dfcYoe y m)
        omega
      · -- d = 29 in February: the year is leap, so the era-year has 366 days
        have hd29' : d = 29 := by
          subst hm2
          simp only [daysInMonth] at h4
          rcases Nat.eq_or_lt_of_le hd29 with h | h
          · omega
          · split at h4 <;> omega
        have hleap : isLeap y = true := by
          subst hm2
          simp only [daysInMonth] at h4
          by_contra hnl
          simp only [Bool.not_eq_true] at hnl
          rw [hnl] at h4
          simp at h4
          omega
        have hy2 : y = dfcEra y m * 400 + ((dfcYoe y m + 1 : Nat) : Int) := by
          have hsh : dfcShiftYear y m = y - 1 := by
            unfold dfcShiftYear
            rw [if_pos (by omega : m ≤ 2)]
          push_cast
          omega
        have h366 : cumD (dfcYoe y m + 1 - 1) + 366 = cumD (dfcYoe y m + 1) := by
          refine (@leap_iff_cumD (dfcEra y m) (dfcYoe y m + 1) (by omega) (by omega)).mp ?_
          rw [← hy2]
          exact hleap
        simp only [Nat.add_sub_cancel] at h366
        omega
    · -- every month other than February starts at day-of-year ≤ 306
      have hmpne : dfcMp m ≠ 11 := fun hc => hm2 ((dfcMp_eq_11 m h1 h2).mp hc)
      have hbase : dfcDoy m ≤ 306 := by
        unfold dfcDoy
        omega
      have := cumD_step_ge (dfcYoe y m)
      omega
  have hcum400 : cumD (dfcYoe y m + 1) ≤ 146097 := cumD_le (by omega)
  -- the serial number decomposes as era * 146097 + day-of-era
  set z : Int := dfcFirst y m + (d : Int) - 1 with hz
  have hzs : z + 719468 =
      dfcEra y m * 146097 +
        ((dfcYoe y m * 365 + dfcYoe y m / 4 - dfcYoe y m / 100 + (dfcDoy m + d - 1) : Nat) : Int) := by
    rw [hz]
    unfold dfcFirst
    push_cast
    omega
  have hdoeval : cfdDoe z = dfcYoe y m * 365 + dfcYoe y m / 4 - dfcYoe y m / 100 +
      (dfcDoy m + d - 1) := by
    have hlt : (dfcYoe y m * 365 + dfcYoe y m / 4 - dfcYoe y m / 100 +
        (dfcDoy m + d - 1) : Nat) < 146097 := by
      unfold cumD at hup hcum400
      omega
    have hera : cfdEra z = dfcEra y m := by
      unfold cfdEra
      rw [hzs]
      omega
    unfold cfdDoe
    rw [hera, hzs]
    omega
  have hera2 : cfdEra z = dfcEra y m := by
    unfold cfdEra
    rw [hzs]
    unfold cumD at hup hcum400
    omega
  have hyoe2 : cfdYoe z = dfcYoe y m := by
    have hbr1 : cumD (dfcYoe y m) ≤ cfdDoe z := by
      rw [hdoeval]
      unfold cumD
      omega
    have hbr2 : cfdDoe z < cumD (dfcYoe y m + 1) := by
      rw [hdoeval]
      unfold cumD at hup ⊢
      omega
    exact yoeF_eq_of_bracket (cfdDoe_le z) hbr1 hbr2
  have hdoy2 : cfdDoy z = dfcDoy m + d - 1 := by
    unfold cfdDoy
    rw [hdoeval, hyoe2]
    omega
  have hmp2 : cfdMp z = dfcMp m := by
    unfold cfdMp
    rw [hdoy2]
    have := mp_rev (dfcMp m) (by omega) d (by omega) h3 hdmlen
    unfold dfcDoy
    unfold dfcDoy at this
    omega
  have hday2 : cfdDay z = d := by
    unfold cfdDay
    rw [hdoy2, hmp2]
    have hbase : dfcDoy m = (153 * dfcMp m + 2) / 5 := rfl
    omega
  have hmonth2 : cfdMonth z = m := by
    unfold cfdMonth
    rw [hmp2]
    unfold dfcMp
    split_ifs <;> omega
  have hyear2 : cfdYear z = y := by
    unfold cfdYear
    rw [hera2, hyoe2, hmonth2]
    unfold dfcShiftYear at hshift
    split_ifs at hshift ⊢ <;> omega
  unfold civilFromDays
  rw [hyear2, hmonth2, hday2]

/-- Rebuilding a time from its civil fields recovers it. -/
theorem mktime_localtime (t : Int) : mktime (localtime t) = t := by
  have hval := cfd_valid (t / 86400)
  have hrt := dfc_cfd (t / 86400)
  unfold mktime localtime
  simp only
  have hM1 : 1 ≤ cfdMonth (t / 86400) := hval.1
  have hM12 : cfdMonth (t / 86400) ≤ 12 := hval.2.1
  have h1 : ((cfdMonth (t / 86400) : Int) - 1) / 12 = 0 := by omega
  have h2 : ((((cfdMonth (t / 86400) : Int) - 1) % 12).toNat + 1) = cfdMonth (t / 86400) := by
    omega
  rw [h1, h2]
  rw [show 1900 + (cfdYear (t / 86400) - 1900) + 0 = cfdYear (t / 86400) by ring]
  omega

/-- The monthly branch of `calculateNextOccurrence`: convert to civil fields,
`tm_mon += 1`, carry `tm_mon > 11` into the year, rebuild with `mktime`. -/
def monthStep (t : Int) : Int :=
  let tm := localtime t
  let tm1 : Tm := { tm with mon := tm.mon + 1 }
  let tm2 : Tm := if tm1.mon > 11 then { tm1 with mon := 0, year := tm1.year + 1 } else tm1
  mktime tm2

/-- The yearly branch of `calculateNextOccurrence`: `tm_year += 1`, rebuild. -/
def yearStep (t : Int) : Int :=
  let tm := localtime t
  mktime { tm with year := tm.year + 1 }

/-- The start of the next calendar month is strictly later (by 28–31 days). -/
theorem dfcFirst_month_lt (y : Int) (m : Nat) (h1 : 1 ≤ m) (h2 : m ≤ 11) :
    dfcFirst y m < dfcFirst y (m + 1) := by
  interval_cases m <;>
    (simp only [dfcFirst, dfcDoy, dfcMp, dfcYoe, dfcEra, dfcShiftYear]
     norm_num <;> omega)

theorem dfcFirst_year_carry (y : Int) : dfcFirst y 12 < dfcFirst (y + 1) 1 := by
  simp only [dfcFirst, dfcDoy, dfcMp, dfcYoe, dfcEra, dfcShiftYear]
  norm_num <;> omega

/-- The same month of the next year starts strictly later (by 365–366 days). -/
theorem dfcFirst_year_lt (y : Int) (m : Nat) (h1 : 1 ≤ m) (h2 : m ≤ 12) :
    dfcFirst y m < dfcFirst (y + 1) m := by
  interval_cases m <;>
    (simp only [dfcFirst, dfcDoy, dfcMp, dfcYoe, dfcEra, dfcShiftYear]
     norm_num <;> omega)

/-- One month step strictly increases the time. -/
theorem monthStep_gt (t : Int) : t < monthStep t := by
  have hval := cfd_valid (t / 86400)
  have hrt := mktime_localtime t
  have hM1 : 1 ≤ cfdMonth (t / 86400) := hval.1
  have hM12 : cfdMonth (t / 86400) ≤ 12 := hval.2.1
  unfold mktime localtime at hrt
  simp only at hrt
  rw [show ((cfdMonth (t / 86400) : Int) - 1) / 12 = 0 by omega,
      show ((((cfdMonth (t / 86400) : Int) - 1) % 12).toNat + 1) = cfdMonth (t / 86400) by omega,
      show 1900 + (cfdYear (t / 86400) - 1900) + 0 = cfdYear (t / 86400) by ring] at hrt
  unfold monthStep
  simp only
  by_cases hcarry : ((localtime t).mon + 1 > 11)
  · rw [if_pos hcarry]
    have hMeq : cfdMonth (t / 86400) = 12 := by
      have hmon : (localtime t).mon = (cfdMonth (t / 86400) : Int) - 1 := rfl
      rw [hmon] at hcarry
      omega
    unfold mktime localtime
    simp only
    rw [show ((0 : Int)) / 12 = 0 by rfl, show (((0 : Int)) % 12).toNat + 1 = 1 by rfl,
        show 1900 + (cfdYear (t / 86400) - 1900 + 1) + 0 = cfdYear (t / 86400) + 1 by ring]
    have hlt := dfcFirst_year_carry (cfdYear (t / 86400))
    rw [hMeq] at hrt
    omega
  · rw [if_neg hcarry]
    have hMle : cfdMonth (t / 86400) ≤ 11 := by
      have hmon : (localtime t).mon = (cfdMonth (t / 86400) : Int) - 1 := rfl
      rw [hmon] at hcarry
      omega
    unfold mktime localtime
    simp only
    rw [show ((cfdMonth (t / 86400) : Int) - 1 + 1) / 12 = 0 by omega,
        show (((cfdMonth (t / 86400) : Int) - 1 + 1) % 12).toNat + 1 =
          cfdMonth (t / 86400) + 1 by omega,
        show 1900 + (cfdYear (t / 86400) - 1900) + 0 = cfdYear (t / 86400) by ring]
    have hlt := dfcFirst_month_lt (cfdYear (t / 86400)) (cfdMonth (t / 86400)) hM1 hMle
    omega

/-- One year step strictly increases the time. -/
theorem yearStep_gt (t : Int) : t < yearStep t := by
  have hval := cfd_valid (t / 86400)
  have hrt := mktime_localtime t
  have hM1 : 1 ≤ cfdMonth (t / 86400) := hval.1
  have hM12 : cfdMonth (t / 86400) ≤ 12 := hval.2.1
  unfold mktime localtime at hrt
  simp only at hrt
  rw [show ((cfdMonth (t / 86400) : Int) - 1) / 12 = 0 by omega,
      show ((((cfdMonth (t / 86400) : Int) - 1) % 12).toNat + 1) = cfdMonth (t / 86400) by omega,
      show 1900 + (cfdYear (t / 86400) - 1900) + 0 = cfdYear (t / 86400) by ring] at hrt
  unfold yearStep mktime localtime
  simp only
  rw [show ((cfdMonth (t / 86400) : Int) - 1) / 12 = 0 by omega,
      show ((((cfdMonth (t / 86400) : Int) - 1) % 12).toNat + 1) = cfdMonth (t / 86400) by omega,
      show 1900 + (cfdYear (t / 86400) - 1900 + 1) + 0 = cfdYear (t / 86400) + 1 by ring]
  have hlt := dfcFirst_year_lt (cfdYear (t / 86400)) (cfdMonth (t / 86400)) hM1 hM12
  omega

/-! ## The scheduling core -/

/-- The `AlarmEvent` struct of the header. -/
structure AlarmEvent where
  id : Int
  description : String
  datetime : Int
  recurrence : RecurrenceType
deriving DecidableEq, Repr

/-- `AlarmEvent::operator>`: the heap comparator orders events by `datetime`. -/
def AlarmEvent.opGreater (a b : AlarmEvent) : Bool := decide (b.datetime < a.datetime)

/-- One advancement step of the `calculateNextOccurrence` loop body (the
`switch` on the recurrence kind); `NONE` never advances. -/
def advanceOnce (r : RecurrenceType) (t : Int) : Int :=
  match r with
  | .NONE => t
  | .DAILY => t + 86400
  | .WEEKLY => t + 7 * 86400
  | .MONTHLY => monthStep t
  | .YEARLY => yearStep t

/-- The `while (time <= now)` loop of `AlarmSystem::calculateNextOccurrence`:
advance `time` by the recurrence period until it is strictly after `now`; a
non-recurring kind (the `default` arm) returns immediately. -/
def calcNext (r : RecurrenceType) (time now : Int) : Int :=
  if h : time ≤ now then
    match r with
    | .NONE => time
    | .DAILY => calcNext .DAILY (time + 86400) now
    | .WEEKLY => calcNext .WEEKLY (time + 7 * 86400) now
    | .MONTHLY => calcNext .MONTHLY (monthStep time) now
    | .YEARLY => calcNext .YEARLY (yearStep time) now
  else time
termination_by (now + 1 - time).toNat
decreasing_by
  all_goals
    first
      | omega
      | (have hs := monthStep_gt time
         omega)
      | (have hs := yearStep_gt time
         omega)

/-- `AlarmSystem::calculateNextOccurrence` on an event. -/
def calculateNextOccurrence (e : AlarmEvent) (now : Int) : Int :=
  calcNext e.recurrence e.datetime now

theorem calcNext_stop (r : RecurrenceType) (time now : Int) (h : ¬ time ≤ now) :
    calcNext r time now = time := by
  unfold calcNext
  rw [dif_neg h]

theorem calcNext_none (time now : Int) : calcNext .NONE time now = time := by
  by_cases h : time ≤ now
  · unfold calcNext
    rw [dif_pos h]
  · exact calcNext_stop _ _ _ h

theorem calcNext_step (r : RecurrenceType) (time now : Int) (h : time ≤ now)
    (hr : r ≠ .NONE) : calcNext r time now = calcNext r (advanceOnce r time) now := by
  cases r with
  | NONE => exact absurd rfl hr
  | DAILY =>
    conv_lhs => rw [calcNext]
    rw [dif_pos h]
    rfl
  | WEEKLY =>
    conv_lhs => rw [calcNext]
    rw [dif_pos h]
    rfl
  | MONTHLY =>
    conv_lhs => rw [calcNext]
    rw [dif_pos h]
    rfl
  | YEARLY =>
    conv_lhs => rw [calcNext]
    rw [dif_pos h]
    rfl

theorem advanceOnce_gt (r : RecurrenceType) (t : Int) (hr : r ≠ .NONE) :
    t < advanceOnce r t := by
  cases r with
  | NONE => exact absurd rfl hr
  | DAILY => simp only [advanceOnce]; omega
  | WEEKLY => simp only [advanceOnce]; omega
  | MONTHLY => exact monthStep_gt t
  | YEARLY => exact yearStep_gt t

/-- Whenever the loop runs for a recurring kind, the result is strictly after
`now`. -/
theorem calcNext_gt (r : RecurrenceType) (hr : r ≠ .NONE) (time now : Int) :
    now < calcNext r time now := by
  have H : ∀ n : Nat, ∀ time : Int, (now + 1 - time).toNat ≤ n → now < calcNext r time now := by
    intro n
    induction n with
    | zero =>
      intro time h0
      have hnot : ¬ time ≤ now := by omega
      rw [calcNext_stop _ _ _ hnot]
      omega
    | succ n ih =>
      intro time hn
      by_cases h : time ≤ now
      · rw [calcNext_step r time now h hr]
        have hadv := advanceOnce_gt r time hr
        exact ih _ (by omega)
      · rw [calcNext_stop _ _ _ h]
        omega
  exact H _ time le_rfl

/-- The loop result is always a finite number of advancement steps from the
starting time. -/
theorem calcNext_iterate (r : RecurrenceType) (time now : Int) :
    ∃ k : Nat, calcNext r time now = (advanceOnce r)^[k] time := by
  by_cases hr : r = .NONE
  · subst hr
    exact ⟨0, calcNext_none time now⟩
  have H : ∀ n : Nat, ∀ time : Int, (now + 1 - time).toNat ≤ n →
      ∃ k : Nat, calcNext r time now = (advanceOnce r)^[k] time := by
    intro n
    induction n with
    | zero =>
      intro time h0
      have hnot : ¬ time ≤ now := by omega
      exact ⟨0, calcNext_stop _ _ _ hnot⟩
    | succ n ih =>
      intro time hn
      by_cases h : time ≤ now
      · rw [calcNext_step r time now h hr]
        have hadv := advanceOnce_gt r time hr
        obtain ⟨k, hk⟩ := ih (advanceOnce r time) (by omega)
        exact ⟨k + 1, by rw [hk, Function.iterate_succ_apply]⟩
      · exact ⟨0, calcNext_stop _ _ _ h⟩
  exact H _ time le_rfl

/-- Closed form of the Daily loop: one period past the last occurrence that is
not after `now`. -/
theorem calcNext_daily (time now : Int) (h : time ≤ now) :
    calcNext .DAILY time now = time + 86400 * ((now - time) / 86400 + 1) := by
  have H : ∀ n : Nat, ∀ time : Int, time ≤ now → (now - time).toNat ≤ n →
      calcNext .DAILY time now = time + 86400 * ((now - time) / 86400 + 1) := by
    intro n
    induction n with
    | zero =>
      intro time hle h0
      rw [calcNext_step _ _ _ hle (by simp)]
      have hstop : ¬ advanceOnce .DAILY time ≤ now := by
        simp only [advanceOnce]
        omega
      rw [calcNext_stop _ _ _ hstop]
      simp only [advanceOnce]
      omega
    | succ n ih =>
      intro time hle hn
      rw [calcNext_step _ _ _ hle (by simp)]
      by_cases h2 : time + 86400 ≤ now
      · have := ih (time + 86400) h2 (by omega)
        simp only [advanceOnce]
        rw [this]
        omega
      · have hstop : ¬ advanceOnce .DAILY time ≤ now := by
          simp only [advanceOnce]
          omega
        rw [calcNext_stop _ _ _ hstop]
        simp only [advanceOnce]
        omega
  exact H _ time h le_rfl

/-! ## datetime_utils: model of `parseDateTime` / `formatDateTime` -/

def isDigitChar (c : Char) : Bool := 48 ≤ c.toNat && c.toNat ≤ 57

def digitVal (c : Char) : Nat := c.toNat - 48

/-- Greedy digit reader of a `std::get_time` numeric field: consume up to `w`
further digit characters, accumulating the value onto `acc`. -/
def readDigits : Nat → List Char → Nat → Nat × List Char
  | 0, cs, acc => (acc, cs)
  | _ + 1, [], acc => (acc, [])
  | w + 1, c :: cs, acc =>
    if isDigitChar c then readDigits w cs (acc * 10 + digitVal c)
    else (acc, c :: cs)

/-- A numeric field of `std::get_time`: at least one digit, at most `w`
digits, value within `[lo, hi]`; `none` on failure. -/
def parseNum (w lo hi : Nat) (cs : List Char) : Option (Nat × List Char) :=
  match cs with
  | [] => none
  | c :: cs' =>
    if isDigitChar c then
      let p := readDigits (w - 1) cs' (digitVal c)
      if lo ≤ p.1 && p.1 ≤ hi then some p else none
    else none

/-- A literal character of the format string must match exactly. -/
def expectChar (c : Char) (cs : List Char) : Option (List Char) :=
  match cs with
  | c' :: rest => if c' = c then some rest else none
  | [] => none

/-- Whitespace in the format string matches any number of spaces. -/
def skipSpaces (cs : List Char) : List Char := cs.dropWhile (fun c => c = ' ')

/-- The zero-initialized `std::tm tm = {}` of `parseDateTime`. -/
def tmZero : Tm := ⟨0, 0, 0, 0, 0, 0⟩

/-- `std::get_time(&tm, "%Y-%m-%d %H:%M")` on a zero-initialized `tm`: the
fields are extracted left to right (`%Y` up to four digits in `[0, 9999]`
stored as `year - 1900`, `%m` in `[1, 12]` stored 0-based, `%d` in `[1, 31]`,
`%H` in `[0, 23]`, `%M` in `[0, 59]`); extraction stops at the first failure,
leaving all later fields zero. -/
def parseTm (cs : List Char) : Tm :=
  match parseNum 4 0 9999 cs with
  | none => tmZero
  | some (y, cs) =>
    let tmY : Tm := { tmZero with year := (y : Int) - 1900 }
    match expectChar '-' cs with
    | none => tmY
    | some cs =>
      match parseNum 2 1 12 cs with
      | none => tmY
      | some (mo, cs) =>
        let tmM : Tm := { tmY with mon := (mo : Int) - 1 }
        match expectChar '-' cs with
        | none => tmM
        | some cs =>
          match parseNum 2 1 31 cs with
          | none => tmM
          | some (d, cs) =>
            let tmD : Tm := { tmM with mday := (d : Int) }
            match parseNum 2 0 23 (skipSpaces cs) with
            | none => tmD
            | some (hh, cs) =>
              let tmH : Tm := { tmD with hour := (hh : Int) }
              match expectChar ':' cs with
              | none => tmH
              | some cs =>
                match parseNum 2 0 59 cs with
                | none => tmH
                | some (mi, _) => { tmH with min := (mi : Int) }

/-- `datetime_utils::parseDateTime`: `get_time` into a zero-initialized `tm`
followed by `mktime`.  The stream's failure state is never checked, so a
malformed string is converted all the same. -/
def parseDateTime (s : String) : Int := mktime (parseTm s.data)

/-- Two-digit zero-padded decimal (`%m`, `%d`, `%H`, `%M` of `put_time`). -/
def pad2 (n : Nat) : List Char := [Char.ofNat (48 + n / 10 % 10), Char.ofNat (48 + n % 10)]

/-- Four-digit zero-padded decimal (`%Y` of `put_time`; every representable
`system_clock` year has exactly four digits). -/
def pad4 (n : Nat) : List Char :=
  [Char.ofNat (48 + n / 1000 % 10), Char.ofNat (48 + n / 100 % 10),
   Char.ofNat (48 + n / 10 % 10), Char.ofNat (48 + n % 10)]

/-- `datetime_utils::formatDateTime`: `put_time(localtime(t), "%Y-%m-%d %H:%M")`. -/
def formatDateTime (t : Int) : String :=
  String.mk
    (pad4 ((localtime t).year + 1900).toNat ++
      '-' :: (pad2 ((localtime t).mon + 1).toNat ++
        '-' :: (pad2 (localtime t).mday.toNat ++
          ' ' :: (pad2 (localtime t).hour.toNat ++
            ':' :: pad2 (localtime t).min.toNat))))

theorem digit_char_facts :
    ∀ d : Nat, d < 10 →
      isDigitChar (Char.ofNat (48 + d)) = true ∧ digitVal (Char.ofNat (48 + d)) = d ∧
        (Char.ofNat (48 + d) = ' ') = False ∧ (Char.ofNat (48 + d) = '-') = False := by
  decide

theorem parseNum_pad2 (n lo hi : Nat) (h : n ≤ 99) (hlo : lo ≤ n) (hhi : n ≤ hi)
    (rest : List Char) : parseNum 2 lo hi (pad2 n ++ rest) = some (n, rest) := by
  have h1 := digit_char_facts (n / 10 % 10) (by omega)
  have h2 := digit_char_facts (n % 10) (by omega)
  simp only [pad2, List.cons_append, List.nil_append, parseNum, h1.1, if_true]
  simp only [readDigits, h2.1, if_true, h1.2.1, h2.2.1]
  have hval : n / 10 % 10 * 10 + n % 10 = n := by omega
  rw [hval]
  simp only [if_pos (by simp [hlo, hhi] : (lo ≤ n && n ≤ hi) = true)]

theorem parseNum_pad4 (n lo hi : Nat) (h : n ≤ 9999) (hlo : lo ≤ n) (hhi : n ≤ hi)
    (rest : List Char) : parseNum 4 lo hi (pad4 n ++ rest) = some (n, rest) := by
  have h1 := digit_char_facts (n / 1000 % 10) (by omega)
  have h2 := digit_char_facts (n / 100 % 10) (by omega)
  have h3 := digit_char_facts (n / 10 % 10) (by omega)
  have h4 := digit_char_facts (n % 10) (by omega)
  simp only [pad4, List.cons_append, List.nil_append, parseNum, h1.1, if_true]
  simp only [readDigits, h2.1, h3.1, h4.1, if_true, h1.2.1, h2.2.1, h3.2.1, h4.2.1]
  have hval : ((n / 1000 % 10 * 10 + n / 100 % 10) * 10 + n / 10 % 10) * 10 + n % 10 = n := by
    omega
  rw [hval]
  simp only [if_pos (by simp [hlo, hhi] : (lo ≤ n && n ≤ hi) = true)]

theorem skipSpaces_space_digits (d : Nat) (hd : d < 10) (l : List Char) :
    skipSpaces (' ' :: (Char.ofNat (48 + d) :: l)) = Char.ofNat (48 + d) :: l := by
  have h1 := digit_char_facts d hd
  simp [skipSpaces, List.dropWhile, h1.2.2.1]

theorem expectChar_cons (c : Char) (rest : List Char) :
    expectChar c (c :: rest) = some rest := by
  simp [expectChar]

/-- Parsing a string in the exact output format of `formatDateTime` recovers
the civil fields. -/
theorem parseTm_format (Y Mo D H Mi : Nat) (hY : Y ≤ 9999) (hMo1 : 1 ≤ Mo) (hMo : Mo ≤ 12)
    (hD1 : 1 ≤ D) (hD : D ≤ 31) (hH : H ≤ 23) (hMi : Mi ≤ 59) :
    parseTm (pad4 Y ++ '-' :: (pad2 Mo ++ '-' :: (pad2 D ++ ' ' :: (pad2 H ++ ':' :: pad2 Mi)))) =
      { sec := 0, min := (Mi : Int), hour := (H : Int), mday := (D : Int),
        mon := (Mo : Int) - 1, year := (Y : Int) - 1900 } := by
  unfold parseTm
  rw [parseNum_pad4 Y 0 9999 hY (by omega) hY]
  simp only
  rw [expectChar_cons]
  simp only
  rw [parseNum_pad2 Mo 1 12 (by omega) hMo1 hMo]
  simp only
  rw [expectChar_cons]
  simp only
  rw [parseNum_pad2 D 1 31 (by omega) hD1 hD]
  simp only
  have hsp : skipSpaces (' ' :: (pad2 H ++ ':' :: pad2 Mi)) =
      Char.ofNat (48 + H / 10 % 10) :: (Char.ofNat (48 + H % 10) :: (':' :: pad2 Mi)) := by
    rw [show (pad2 H ++ ':' :: pad2 Mi) =
        Char.ofNat (48 + H / 10 % 10) :: (Char.ofNat (48 + H % 10) :: (':' :: pad2 Mi)) by
      simp [pad2]]
    exact skipSpaces_space_digits (H / 10 % 10) (by omega) _
  rw [hsp]
  rw [show (Char.ofNat (48 + H / 10 % 10) :: (Char.ofNat (48 + H % 10) :: (':' :: pad2 Mi))) =
      pad2 H ++ ':' :: pad2 Mi by simp [pad2]]
  rw [parseNum_pad2 H 0 23 (by omega) (by omega) hH]
  simp only
  rw [expectChar_cons]
  simp only
  rw [show (pad2 Mi) = pad2 Mi ++ ([] : List Char) from (List.append_nil _).symm]
  rw [parseNum_pad2 Mi 0 59 (by omega) (by omega) hMi]
  simp [tmZero]

theorem cfdYear_bounds (z : Int) (h1 : -106752 ≤ z) (h2 : z ≤ 106751) :
    1600 ≤ cfdYear z ∧ cfdYear z ≤ 2401 := by
  have hera : 4 ≤ cfdEra z ∧ cfdEra z ≤ 5 := by
    unfold cfdEra
    omega
  have hyoe : cfdYoe z ≤ 399 := yoeF_le_399 (cfdDoe_le z)
  unfold cfdYear
  split <;> omega

/-- Formatting then parsing a representable time loses exactly the seconds
within the minute. -/
theorem parse_format (t : Int) (h1 : -9223372036 ≤ t) (h2 : t ≤ 9223372036) :
    parseDateTime (formatDateTime t) = t - t % 60 := by
  have hdays1 : -106752 ≤ t / 86400 := by omega
  have hdays2 : t / 86400 ≤ 106751 := by omega
  have hYb := cfdYear_bounds (t / 86400) hdays1 hdays2
  have hval := cfd_valid (t / 86400)
  have hD31 : cfdDay (t / 86400) ≤ 31 := le_trans hval.2.2.2 (daysInMonth_le_31 _ _)
  unfold parseDateTime formatDateTime localtime
  simp only
  rw [show (cfdYear (t / 86400) - 1900 + 1900).toNat = (cfdYear (t / 86400)).toNat by omega]
  rw [show ((cfdMonth (t / 86400) : Int) - 1 + 1).toNat = cfdMonth (t / 86400) by omega]
  rw [show ((cfdDay (t / 86400) : Int)).toNat = cfdDay (t / 86400) by omega]
  rw [show ((((t % 86400).toNat / 3600 : Nat) : Int)).toNat = (t % 86400).toNat / 3600 by omega]
  rw [show ((((t % 86400).toNat % 3600 / 60 : Nat) : Int)).toNat =
      (t % 86400).toNat % 3600 / 60 by omega]
  rw [parseTm_format (cfdYear (t / 86400)).toNat (cfdMonth (t / 86400)) (cfdDay (t / 86400))
    ((t % 86400).toNat / 3600) ((t % 86400).toNat % 3600 / 60)
    (by omega) hval.1 hval.2.1 hval.2.2.1 hD31 (by omega) (by omega)]
  unfold mktime
  simp only
  rw [show ((cfdMonth (t / 86400) : Int) - 1) / 12 = 0 by omega,
      show (((cfdMonth (t / 86400) : Int) - 1) % 12).toNat + 1 = cfdMonth (t / 86400) by omega,
      show (1900 + ((((cfdYear (t / 86400)).toNat : Nat) : Int) - 1900) + 0) =
        cfdYear (t / 86400) by omega]
  have hrt := dfc_cfd (t / 86400)
  omega

/-! ## The event store and the `AlarmSystem` operations -/

/-- The order in which the min-heap surrenders events: ascending `datetime`
(the C++ queue uses `std::greater`, i.e. `AlarmEvent::operator>`, so the top
is the earliest event). -/
def eventLE (a b : AlarmEvent) : Prop := a.datetime ≤ b.datetime

instance : DecidableRel eventLE := fun a b => Int.decLe a.datetime b.datetime

instance : IsTotal AlarmEvent eventLE := ⟨fun a b => Int.le_total a.datetime b.datetime⟩

instance : IsTrans AlarmEvent eventLE := ⟨fun _ _ _ hab hbc => le_trans hab hbc⟩

/-- Draining a copy of the priority queue from the top yields its elements in
ascending `datetime` order, ties in unspecified order; modelled as a stable
sort of the stored multiset. -/
def sortEvents (l : List AlarmEvent) : List AlarmEvent := List.insertionSort eventLE l

/-- The in-memory state of `AlarmSystem`: the `events` priority queue,
modelled as the multiset (list) of stored events. -/
structure AlarmState where
  events : List AlarmEvent
deriving DecidableEq, Repr

/-- `AlarmSystem::addEvent`.  The datetime string is parsed first (this never
fails, see `parseDateTime`), then the database insert runs; on
`DatabaseException` the error is rethrown as `AlarmSystemException` and the
store is untouched, otherwise the event is pushed with the id returned by the
database.  The database outcome is the explicit `dbResult` parameter. -/
def addEvent (dbResult : Except String Int) (description : String)
    (datetimeStr : String) (recurrence : RecurrenceType) (s : AlarmState) :
    Except String Unit × AlarmState :=
  let tp := parseDateTime datetimeStr
  match dbResult with
  | .error e => (.error ("Failed to add event: " ++ e), s)
  | .ok i =>
    (.ok (), { events :=
      { id := i, description := description, datetime := tp, recurrence := recurrence }
        :: s.events })

/-- The display description built by `AlarmSystem::getEvents`: recurring
events are annotated with their recurrence kind. -/
def displayDescription (e : AlarmEvent) : String :=
  if e.recurrence ≠ .NONE then
    e.description ++ " (" ++ recurrenceTypeToString e.recurrence ++ ")"
  else e.description

/-- `AlarmSystem::getEvents`: drain a copy of the queue from the top,
formatting each event. -/
def getEvents (s : AlarmState) : List (String × String) :=
  (sortEvents s.events).map (fun e => (displayDescription e, formatDateTime e.datetime))

/-- `getEvents` paired with the state of the `AlarmSystem` object after the
call: the loop drains the local copy `temp`; the member queue is unchanged. -/
def getEventsCall (s : AlarmState) : List (String × String) × AlarmState :=
  (getEvents s, s)

/-- `AlarmSystem::loadAlarms` over the records returned by
`Database::loadAlarms`: a recurring record is re-inserted at its next
occurrence; a one-shot record is re-inserted unchanged only if its time is
still in the future, and dropped otherwise. -/
def loadAlarms (saved : List AlarmEvent) (now : Int) : AlarmState :=
  { events := saved.filterMap (fun alarm =>
      if alarm.recurrence ≠ .NONE then
        some { id := alarm.id, description := alarm.description,
               datetime := calculateNextOccurrence alarm now,
               recurrence := alarm.recurrence }
      else if now < alarm.datetime then
        some alarm
      else none) }

/-- One iteration of the `AlarmSystem::checkAlarms` worker loop at time `now`.
Returns the state after the iteration and the `updateAlarmDateTime` calls the
database received.  An empty queue or a future earliest event waits on the
condition variable (state unchanged); a due event is popped and fired, and a
recurring one is re-inserted at its next occurrence when the database update
succeeds (`updateOk = true`), or dropped with the failure logged to stderr
when it throws — the loop itself continues either way. -/
def checkAlarmsIter (now : Int) (updateOk : Bool) (s : AlarmState) :
    AlarmState × List (Int × String) :=
  match sortEvents s.events with
  | [] => (s, [])
  | top :: rest =>
    if top.datetime ≤ now then
      if top.recurrence ≠ .NONE then
        let nxt := calculateNextOccurrence top now
        if updateOk then
          ({ events := { top with datetime := nxt } :: rest }, [(top.id, formatDateTime nxt)])
        else
          ({ events := rest }, [(top.id, formatDateTime nxt)])
      else ({ events := rest }, [])
    else (s, [])

/-- A sequence of `Submit` calls, each with its database outcome, applied to a
state. -/
def applySubmits (reqs : List (Except String Int × String × String × RecurrenceType))
    (s : AlarmState) : AlarmState :=
  reqs.foldl (fun st r => (addEvent r.1 r.2.1 r.2.2.1 r.2.2.2 st).2) s

theorem sortEvents_sorted (l : List AlarmEvent) : List.Sorted eventLE (sortEvents l) :=
  List.sorted_insertionSort eventLE l

theorem sortEvents_perm (l : List AlarmEvent) : (sortEvents l).Perm l :=
  List.perm_insertionSort eventLE l

theorem displayDescription_eq (e : AlarmEvent) :
    displayDescription e =
      if e.recurrence = .NONE then e.description
      else e.description ++ " (" ++ recurrenceTypeToString e.recurrence ++ ")" := by
  unfold displayDescription
  by_cases h : e.recurrence = .NONE
  · simp [h]
  · simp [h]

/-! ## Decomposition of the month and year steps into civil fields -/

theorem monthStep_decompose (t : Int) :
    monthStep t =
      (dfcFirst
          (if cfdMonth (t / 86400) = 12 then cfdYear (t / 86400) + 1 else cfdYear (t / 86400))
          (if cfdMonth (t / 86400) = 12 then 1 else cfdMonth (t / 86400) + 1) +
        ((cfdDay (t / 86400) : Int) - 1)) * 86400 + t % 86400 := by
  have hval := cfd_valid (t / 86400)
  have hM1 : 1 ≤ cfdMonth (t / 86400) := hval.1
  have hM12 : cfdMonth (t / 86400) ≤ 12 := hval.2.1
  unfold monthStep
  simp only
  by_cases hcarry : ((localtime t).mon + 1 > 11)
  · rw [if_pos hcarry]
    have hMeq : cfdMonth (t / 86400) = 12 := by
      have hmon : (localtime t).mon = (cfdMonth (t / 86400) : Int) - 1 := rfl
      rw [hmon] at hcarry
      omega
    unfold mktime localtime
    simp only
    rw [show ((0 : Int)) / 12 = 0 by rfl, show (((0 : Int)) % 12).toNat + 1 = 1 by rfl,
        show 1900 + (cfdYear (t / 86400) - 1900 + 1) + 0 = cfdYear (t / 86400) + 1 by ring,
        if_pos hMeq, if_pos hMeq]
    omega
  · rw [if_neg hcarry]
    have hMle : cfdMonth (t / 86400) ≤ 11 := by
      have hmon : (localtime t).mon = (cfdMonth (t / 86400) : Int) - 1 := rfl
      rw [hmon] at hcarry
      omega
    have hMne : ¬ cfdMonth (t / 86400) = 12 := by omega
    unfold mktime localtime
    simp only
    rw [show ((cfdMonth (t / 86400) : Int) - 1 + 1) / 12 = 0 by omega,
        show (((cfdMonth (t / 86400) : Int) - 1 + 1) % 12).toNat + 1 =
          cfdMonth (t / 86400) + 1 by omega,
        show 1900 + (cfdYear (t / 86400) - 1900) + 0 = cfdYear (t / 86400) by ring,
        if_neg hMne, if_neg hMne]
    omega

theorem yearStep_decompose (t : Int) :
    yearStep t =
      (dfcFirst (cfdYear (t / 86400) + 1) (cfdMonth (t / 86400)) +
        ((cfdDay (t / 86400) : Int) - 1)) * 86400 + t % 86400 := by
  have hval := cfd_valid (t / 86400)
  have hM1 : 1 ≤ cfdMonth (t / 86400) := hval.1
  have hM12 : cfdMonth (t / 86400) ≤ 12 := hval.2.1
  unfold yearStep mktime localtime
  simp only
  rw [show ((cfdMonth (t / 86400) : Int) - 1) / 12 = 0 by omega,
      show (((cfdMonth (t / 86400) : Int) - 1) % 12).toNat + 1 = cfdMonth (t / 86400) by omega,
      show 1900 + (cfdYear (t / 86400) - 1900 + 1) + 0 = cfdYear (t / 86400) + 1 by ring]
  omega

/-! ## The claims -/

/-- C1 (counterexample): for a Daily event whose `due_at` lies exactly one
period before `now` (gap = 24h), the loop exits strictly after `now` and
returns `due_at + 2·86400`, violating the claimed bound
`result ≤ due_at + 24h * ceil(gap/24h) = due_at + 86400`. -/
theorem claim_C1_counterexample :
    calculateNextOccurrence
        { id := 1, description := "Daily", datetime := 0, recurrence := .DAILY } 86400 =
      172800 ∧
      ¬ (calculateNextOccurrence
          { id := 1, description := "Daily", datetime := 0, recurrence := .DAILY } 86400 ≤
        0 + 86400 * 1) := by
  have h := calcNext_daily 0 86400 (by omega)
  have he : calculateNextOccurrence
      { id := 1, description := "Daily", datetime := 0, recurrence := .DAILY } 86400 =
      calcNext .DAILY 0 86400 := rfl
  rw [he, h]
  omega

/-- C1 (amended): for every recurring event whose `due_at` is not after `now`,
`calculateNextOccurrence` returns a time strictly greater than `now` that is a
whole number of advancement steps past `due_at`; for Daily recurrence the
result is exactly `due_at + 24h * (floor(gap/24h) + 1)` (which coincides with
the claimed ceiling bound except when the gap is an exact multiple of 24h, see
the counterexample). -/
theorem claim_C1 (e : AlarmEvent) (now : Int) (hr : e.recurrence ≠ .NONE)
    (hle : e.datetime ≤ now) :
    now < calculateNextOccurrence e now ∧
      (∃ k : Nat, calculateNextOccurrence e now = (advanceOnce e.recurrence)^[k] e.datetime) ∧
      (e.recurrence = .DAILY →
        calculateNextOccurrence e now = e.datetime + 86400 * ((now - e.datetime) / 86400 + 1)) := by
  refine ⟨calcNext_gt e.recurrence hr e.datetime now,
    calcNext_iterate e.recurrence e.datetime now, fun hd => ?_⟩
  have he : calculateNextOccurrence e now = calcNext e.recurrence e.datetime now := rfl
  rw [he, hd]
  exact calcNext_daily e.datetime now hle

/-- C1 (witness): the amended claim at a Daily event due at the epoch with
`now` half a day later. -/
theorem claim_C1_witness :
    ((RecurrenceType.DAILY ≠ RecurrenceType.NONE) ∧ ((0 : Int) ≤ 43200)) ∧
      ((43200 : Int) < calculateNextOccurrence
          { id := 1, description := "d", datetime := 0, recurrence := .DAILY } 43200 ∧
        (∃ k : Nat, calculateNextOccurrence
              { id := 1, description := "d", datetime := 0, recurrence := .DAILY } 43200 =
            (advanceOnce RecurrenceType.DAILY)^[k] 0) ∧
        (RecurrenceType.DAILY = RecurrenceType.DAILY →
          calculateNextOccurrence
              { id := 1, description := "d", datetime := 0, recurrence := .DAILY } 43200 =
            0 + 86400 * ((43200 - 0) / 86400 + 1))) :=
  ⟨⟨by decide, by decide⟩,
    claim_C1 { id := 1, description := "d", datetime := 0, recurrence := .DAILY } 43200
      (by decide) (by decide)⟩

/-- C2 (counterexample): submitting the unparseable time string `"garbage"`
does not fail and does insert an event: `parseDateTime` ignores the
`get_time` failure and converts the zero-initialized `tm` regardless, so the
malformed string enters the store. -/
theorem claim_C2_counterexample :
    (addEvent (.ok 1) "Meeting" "garbage" .NONE { events := [] }).1 = .ok () ∧
      (addEvent (.ok 1) "Meeting" "garbage" .NONE { events := [] }).2.events =
        [{ id := 1, description := "Meeting", datetime := parseDateTime "garbage",
           recurrence := .NONE }] :=
  ⟨rfl, rfl⟩

/-- C2 (amended): `addEvent` performs no validation of the time string: every
string is parsed best-effort (fields that fail to parse stay zero) and the
event is inserted whenever the database insert succeeds; the only failure
path is a database error, which is rethrown with the store untouched. -/
theorem claim_C2 (i : Int) (desc dtStr : String) (r : RecurrenceType) (s : AlarmState)
    (e : String) :
    addEvent (.ok i) desc dtStr r s =
      (.ok (), { events :=
        { id := i, description := desc, datetime := parseDateTime dtStr, recurrence := r }
          :: s.events }) ∧
      addEvent (.error e) desc dtStr r s = (.error ("Failed to add event: " ++ e), s) :=
  ⟨rfl, rfl⟩

/-- C9: the advance-until-future loop of `calculateNextOccurrence` is
well-founded: every recurring advancement step strictly increases the
candidate time, a `NONE` recurrence returns the due time immediately, and the
loop result is always a finite iterate of the step function. -/
theorem claim_C9 :
    (∀ t : Int, t < advanceOnce .DAILY t ∧ t < advanceOnce .WEEKLY t ∧
        t < advanceOnce .MONTHLY t ∧ t < advanceOnce .YEARLY t) ∧
      (∀ time now : Int, calcNext .NONE time now = time) ∧
      (∀ (r : RecurrenceType) (time now : Int),
        ∃ k : Nat, calcNext r time now = (advanceOnce r)^[k] time) :=
  ⟨fun t => ⟨advanceOnce_gt _ t (by decide), advanceOnce_gt _ t (by decide),
      advanceOnce_gt _ t (by decide), advanceOnce_gt _ t (by decide)⟩,
    calcNext_none, calcNext_iterate⟩

/-- C7 (counterexample): one monthly step from 2024-01-31 00:00 produces
2024-03-02 00:00: the month is not advanced to February and the day-of-month
is not preserved, because `mktime` normalizes the nonexistent February 31. -/
theorem claim_C7_counterexample :
    civilFromDays (1706659200 / 86400) = (2024, 1, 31) ∧
      civilFromDays (monthStep 1706659200 / 86400) = (2024, 3, 2) := by
  constructor
  · decide
  · decide

/-- C7 (amended): when the day-of-month exists in the target month, one
monthly step maps month m to m + 1 (December carrying into January of the
next year) preserving day-of-month and time of day, and one yearly step
increments the year preserving month, day and time of day.  When the target
day does not exist, `mktime` rolls the date over instead (counterexample). -/
theorem claim_C7 (t : Int)
    (hm : cfdDay (t / 86400) ≤
      daysInMonth
        (if cfdMonth (t / 86400) = 12 then cfdYear (t / 86400) + 1 else cfdYear (t / 86400))
        (if cfdMonth (t / 86400) = 12 then 1 else cfdMonth (t / 86400) + 1))
    (hy : cfdDay (t / 86400) ≤ daysInMonth (cfdYear (t / 86400) + 1) (cfdMonth (t / 86400))) :
    civilFromDays (monthStep t / 86400) =
      ((if cfdMonth (t / 86400) = 12 then cfdYear (t / 86400) + 1 else cfdYear (t / 86400)),
        (if cfdMonth (t / 86400) = 12 then 1 else cfdMonth (t / 86400) + 1),
        cfdDay (t / 86400)) ∧
      monthStep t % 86400 = t % 86400 ∧
      civilFromDays (yearStep t / 86400) =
        (cfdYear (t / 86400) + 1, cfdMonth (t / 86400), cfdDay (t / 86400)) ∧
      yearStep t % 86400 = t % 86400 := by
  have hval := cfd_valid (t / 86400)
  have hmd := monthStep_decompose t
  have hyd := yearStep_decompose t
  have hdivm : monthStep t / 86400 =
      dfcFirst
        (if cfdMonth (t / 86400) = 12 then cfdYear (t / 86400) + 1 else cfdYear (t / 86400))
        (if cfdMonth (t / 86400) = 12 then 1 else cfdMonth (t / 86400) + 1) +
        (cfdDay (t / 86400) : Int) - 1 := by
    rw [hmd]
    omega
  have hdivy : yearStep t / 86400 =
      dfcFirst (cfdYear (t / 86400) + 1) (cfdMonth (t / 86400)) +
        (cfdDay (t / 86400) : Int) - 1 := by
    rw [hyd]
    omega
  refine ⟨?_, by rw [hmd]; omega, ?_, by rw [hyd]; omega⟩
  · rw [hdivm]
    exact cfd_dfc _ _ _ (by split <;> omega)
      (by have := hval.2.1; split <;> omega) hval.2.2.1 hm
  · rw [hdivy]
    exact cfd_dfc _ _ _ hval.1 hval.2.1 hval.2.2.1 hy

/-- C7 (witness): the amended claim at the epoch, 1970-01-01 00:00: one month
later is 1970-02-01, one year later is 1971-01-01. -/
theorem claim_C7_witness :
    (cfdDay ((0 : Int) / 86400) ≤
        daysInMonth
          (if cfdMonth ((0 : Int) / 86400) = 12 then cfdYear ((0 : Int) / 86400) + 1
            else cfdYear ((0 : Int) / 86400))
          (if cfdMonth ((0 : Int) / 86400) = 12 then 1 else cfdMonth ((0 : Int) / 86400) + 1) ∧
      cfdDay ((0 : Int) / 86400) ≤
        daysInMonth (cfdYear ((0 : Int) / 86400) + 1) (cfdMonth ((0 : Int) / 86400))) ∧
      (civilFromDays (monthStep 0 / 86400) =
        ((if cfdMonth ((0 : Int) / 86400) = 12 then cfdYear ((0 : Int) / 86400) + 1
            else cfdYear ((0 : Int) / 86400)),
          (if cfdMonth ((0 : Int) / 86400) = 12 then 1 else cfdMonth ((0 : Int) / 86400) + 1),
          cfdDay ((0 : Int) / 86400)) ∧
        monthStep 0 % 86400 = (0 : Int) % 86400 ∧
        civilFromDays (yearStep 0 / 86400) =
          (cfdYear ((0 : Int) / 86400) + 1, cfdMonth ((0 : Int) / 86400),
            cfdDay ((0 : Int) / 86400)) ∧
        yearStep 0 % 86400 = (0 : Int) % 86400) :=
  ⟨⟨by decide, by decide⟩, claim_C7 0 (by decide) (by decide)⟩

/-- C3: after any sequence of `Submit` calls, `getEvents` lists the stored
events in non-decreasing `due_at` order (a sorted permutation of the queue),
each recurring event displayed as `"description (Kind)"` and each one-shot
event's description verbatim. -/
theorem claim_C3 (reqs : List (Except String Int × String × String × RecurrenceType)) :
    ∃ l : List AlarmEvent,
      l.Perm (applySubmits reqs { events := [] }).events ∧
      List.Sorted (fun a b => a.datetime ≤ b.datetime) l ∧
      getEvents (applySubmits reqs { events := [] }) =
        l.map (fun e =>
          (if e.recurrence = .NONE then e.description
            else e.description ++ " (" ++ recurrenceTypeToString e.recurrence ++ ")",
            formatDateTime e.datetime)) := by
  refine ⟨sortEvents (applySubmits reqs { events := [] }).events,
    sortEvents_perm _, sortEvents_sorted _, ?_⟩
  unfold getEvents
  refine List.map_congr_left fun e _ => ?_
  rw [displayDescription_eq]

/-- C4: if the durable write fails during `Submit`, the error is propagated
(as an `AlarmSystemException` wrapping the database error) and the event
store is unchanged, so the listing is unchanged as well. -/
theorem claim_C4 (e desc dtStr : String) (r : RecurrenceType) (s : AlarmState) :
    addEvent (.error e) desc dtStr r s = (.error ("Failed to add event: " ++ e), s) ∧
      (addEvent (.error e) desc dtStr r s).2 = s ∧
      getEvents (addEvent (.error e) desc dtStr r s).2 = getEvents s :=
  ⟨rfl, rfl, rfl⟩

/-- C5: `loadAlarms` inserts exactly: every recurring record with its
`due_at` replaced by `calculateNextOccurrence`, and every one-shot record
whose `due_at` is strictly in the future; a one-shot record that is already
due never enters the store, and every listed entry comes from a stored
event. -/
theorem claim_C5 (saved : List AlarmEvent) (now : Int) :
    (∀ ev : AlarmEvent, ev ∈ (loadAlarms saved now).events ↔
        ((∃ a ∈ saved, a.recurrence ≠ .NONE ∧
            ev = { id := a.id, description := a.description,
                   datetime := calculateNextOccurrence a now, recurrence := a.recurrence }) ∨
          (ev ∈ saved ∧ ev.recurrence = .NONE ∧ now < ev.datetime))) ∧
      (∀ a ∈ saved, a.recurrence = .NONE → a.datetime ≤ now →
        a ∉ (loadAlarms saved now).events) ∧
      (∀ p ∈ getEvents (loadAlarms saved now), ∃ ev ∈ (loadAlarms saved now).events,
        p = (displayDescription ev, formatDateTime ev.datetime)) := by
  have hchar : ∀ ev : AlarmEvent, ev ∈ (loadAlarms saved now).events ↔
      ((∃ a ∈ saved, a.recurrence ≠ .NONE ∧
          ev = { id := a.id, description := a.description,
                 datetime := calculateNextOccurrence a now, recurrence := a.recurrence }) ∨
        (ev ∈ saved ∧ ev.recurrence = .NONE ∧ now < ev.datetime)) := by
    intro ev
    unfold loadAlarms
    simp only [List.mem_filterMap]
    constructor
    · rintro ⟨a, ha, hfa⟩
      by_cases hrec : a.recurrence = .NONE
      · rw [if_neg (by simp [hrec])] at hfa
        by_cases hlt : now < a.datetime
        · rw [if_pos hlt] at hfa
          have : a = ev := Option.some.inj hfa
          subst this
          exact Or.inr ⟨ha, hrec, hlt⟩
        · rw [if_neg hlt] at hfa
          exact absurd hfa (by simp)
      · rw [if_pos hrec] at hfa
        exact Or.inl ⟨a, ha, hrec, (Option.some.inj hfa).symm⟩
    · rintro (⟨a, ha, hrec, he⟩ | ⟨hmem, hrec, hlt⟩)
      · exact ⟨a, ha, by rw [if_pos hrec, he]⟩
      · exact ⟨ev, hmem, by rw [if_neg (by simp [hrec]), if_pos hlt]⟩
  refine ⟨hchar, ?_, ?_⟩
  · intro a ha hrec hle hmem2
    rcases (hchar a).mp hmem2 with ⟨b, _, hbrec, heq⟩ | ⟨_, _, hlt⟩
    · have hsame : a.recurrence = b.recurrence := by rw [heq]
      exact hbrec (by rw [← hsame, hrec])
    · omega
  · intro p hp
    unfold getEvents at hp
    rw [List.mem_map] at hp
    obtain ⟨ev, hev, rfl⟩ := hp
    exact ⟨ev, (sortEvents_perm _).subset hev, rfl⟩

/-- C5 (witness): a one-shot record already due at bootstrap time is not in
the loaded store. -/
theorem claim_C5_witness :
    ((⟨1, "x", 0, .NONE⟩ : AlarmEvent) ∈ [(⟨1, "x", 0, .NONE⟩ : AlarmEvent)] ∧
        (⟨1, "x", 0, .NONE⟩ : AlarmEvent).recurrence = .NONE ∧
        (⟨1, "x", 0, .NONE⟩ : AlarmEvent).datetime ≤ 5) ∧
      (⟨1, "x", 0, .NONE⟩ : AlarmEvent) ∉ (loadAlarms [⟨1, "x", 0, .NONE⟩] 5).events :=
  ⟨⟨by simp, rfl, by decide⟩,
    (claim_C5 [⟨1, "x", 0, .NONE⟩] 5).2.1 ⟨1, "x", 0, .NONE⟩ (by simp) rfl (by decide)⟩

/-- C6: when the scheduler loop fires a due recurring event, the database
receives exactly one `updateAlarmDateTime` call carrying the advanced time;
if the update fails the event is dropped (not re-inserted) and the iteration
still returns normally, and if it succeeds the event is re-inserted with the
advanced `due_at`. -/
theorem claim_C6 (s : AlarmState) (now : Int) (top : AlarmEvent) (rest : List AlarmEvent)
    (hsort : sortEvents s.events = top :: rest) (hdue : top.datetime ≤ now)
    (hrec : top.recurrence ≠ .NONE) :
    checkAlarmsIter now false s =
      ({ events := rest }, [(top.id, formatDateTime (calculateNextOccurrence top now))]) ∧
      checkAlarmsIter now true s =
        ({ events := { top with datetime := calculateNextOccurrence top now } :: rest },
          [(top.id, formatDateTime (calculateNextOccurrence top now))]) := by
  unfold checkAlarmsIter
  rw [hsort]
  simp only [if_pos hdue, if_pos hrec]
  exact ⟨rfl, rfl⟩

/-- C6 (witness): a Daily event due at the epoch, fired at `now = 0`: with a
failing update the queue empties; with a successful one the event returns at
its next occurrence, and in both cases the database sees one update call. -/
theorem claim_C6_witness :
    (sortEvents ({ events := [⟨1, "d", 0, .DAILY⟩] } : AlarmState).events =
        [(⟨1, "d", 0, .DAILY⟩ : AlarmEvent)] ∧
        ((⟨1, "d", 0, .DAILY⟩ : AlarmEvent).datetime ≤ 0) ∧
        (⟨1, "d", 0, .DAILY⟩ : AlarmEvent).recurrence ≠ .NONE) ∧
      (checkAlarmsIter 0 false { events := [⟨1, "d", 0, .DAILY⟩] } =
          ({ events := [] },
            [(1, formatDateTime (calculateNextOccurrence ⟨1, "d", 0, .DAILY⟩ 0))]) ∧
        checkAlarmsIter 0 true { events := [⟨1, "d", 0, .DAILY⟩] } =
          ({ events := [⟨1, "d", calculateNextOccurrence ⟨1, "d", 0, .DAILY⟩ 0, .DAILY⟩] },
            [(1, formatDateTime (calculateNextOccurrence ⟨1, "d", 0, .DAILY⟩ 0))])) :=
  ⟨⟨rfl, by decide, by decide⟩,
    claim_C6 { events := [⟨1, "d", 0, .DAILY⟩] } 0 ⟨1, "d", 0, .DAILY⟩ [] rfl
      (by decide) (by decide)⟩

/-- C8: `getEvents` leaves the `AlarmSystem` state unchanged (the loop drains
a local copy of the queue), so two consecutive calls with no intervening
submit or firing return identical output and leave the original state. -/
theorem claim_C8 (s : AlarmState) :
    (getEventsCall s).2 = s ∧
      (getEventsCall ((getEventsCall s).2)).1 = (getEventsCall s).1 ∧
      (getEventsCall ((getEventsCall s).2)).2 = s :=
  ⟨rfl, rfl, rfl⟩

/-- C10: for every `time_point` representable by `std::chrono::system_clock`
(64-bit nanoseconds, so seconds in `[-9223372036, 9223372036]`, i.e. years
1677–2262), `parseDateTime (formatDateTime t)` recovers `t` truncated to its
calendar minute: only the seconds within the minute are lost. -/
theorem claim_C10 (t : Int) (h1 : -9223372036 ≤ t) (h2 : t ≤ 9223372036) :
    parseDateTime (formatDateTime t) = t - t % 60 :=
  parse_format t h1 h2

/-- C10 (witness): the round trip at 1970-01-01 23:59:59 drops the 59
seconds. -/
theorem claim_C10_witness :
    (-9223372036 ≤ (86399 : Int) ∧ (86399 : Int) ≤ 9223372036) ∧
      parseDateTime (formatDateTime 86399) = 86399 - 86399 % 60 :=
  ⟨⟨by decide, by decide⟩, claim_C10 86399 (by decide) (by decide)⟩

end AlarmServer
